import Mathlib

/-!
Public-key pinning dialer (`makeDialer`, main.go)

A shallow embedding of `makeDialer` from `main.go`.  The Go standard-library
functions it calls (`tls.Dial`, `x509.MarshalPKIXPublicKey`, `sha256.Sum256`)
are not part of the repository; they are gathered in a record `Lib` that
every definition takes as an argument.  `bytes.Equal`, `errors.New` and
`log.Fatal` are modelled directly.

The dialer is instrumented: besides its outcome it yields the list of library
calls it performed, in program order, so that statements such as "no
certificate is encoded" can be expressed.
-/

namespace SslPinning

/-! ## Data model -/

/-- A byte string (`[]byte`, or a `[32]byte` array seen through `x[0:]`). -/
abbrev Bytes := List Nat

/-- A Go `error` value that is not nil: its dynamic type and the text that
`Error()` yields. -/
structure GoError where
  dynType : String
  msg : String
  deriving DecidableEq, Repr

/-- The value `peercert.PublicKey` (Go type `any`), identified by a number. -/
abbrev CryptoPublicKey := Nat

/-- The part of `x509.Certificate` that the dialer reads. -/
structure Certificate where
  PublicKey : CryptoPublicKey
  deriving DecidableEq, Repr

/-- The part of `tls.ConnectionState` that the dialer reads. -/
structure ConnectionState where
  PeerCertificates : List Certificate
  deriving DecidableEq, Repr

/-- A `*tls.Conn` that is not nil: a handle together with the connection state
that `ConnectionState()` reports. -/
structure TlsConn where
  handle : Nat
  state : ConnectionState
  deriving DecidableEq, Repr

/-- The fields of `tls.Config` that the dialer sets. -/
structure Config where
  InsecureSkipVerify : Bool
  deriving DecidableEq, Repr

/-- The standard-library functions used by `makeDialer`.  A Go result pair
`(v, err)` is a Lean pair whose second component is `none` for a nil error;
a `*tls.Conn` that may be nil is an `Option TlsConn`. -/
structure Lib where
  tlsDial : String → String → Config → Option TlsConn × Option GoError
  MarshalPKIXPublicKey : CryptoPublicKey → Bytes × Option GoError
  Sum256 : Bytes → Bytes

/-- One library call performed by the dialer. -/
inductive Call where
  | tlsDial (network addr : String) (cfg : Config)
  | ConnectionState (c : TlsConn)
  | MarshalPKIXPublicKey (pub : CryptoPublicKey)
  | Sum256 (der : Bytes)
  | bytesEqual (a b : Bytes)
  | logFatal (err : GoError)
  | errorsNew (text : String)
  | connClose (c : TlsConn)
  deriving DecidableEq, Repr

/-- How one invocation of the dialer ends: it returns the Go pair
`(net.Conn, error)`, or `log.Fatal` exits the process, or a nil pointer is
dereferenced. -/
inductive Outcome where
  | ret (c : Option TlsConn) (err : Option GoError)
  | fatal (err : GoError)
  | nilDeref
  deriving DecidableEq, Repr

/-! ## Operations -/

/-- Go `bytes.Equal`. -/
def bytesEqual (a b : Bytes) : Bool := decide (a = b)

/-- Go `errors.New`. -/
def errorsNew (text : String) : GoError := ⟨"*errors.errorString", text⟩

/-- The loop `for _, fingerprint := range fingerprints` (main.go 39-44), with
`keyPinValid` threaded through.  The `break` leaves this loop only. -/
def fingerprintLoop (hash : Bytes) : List Bytes → Bool → List Call × Bool
  | [], keyPinValid => ([], keyPinValid)
  | fingerprint :: rest, keyPinValid =>
    if bytesEqual hash fingerprint then
      ([Call.bytesEqual hash fingerprint], true)
    else
      let r := fingerprintLoop hash rest keyPinValid
      (Call.bytesEqual hash fingerprint :: r.1, r.2)

/-- The loop `for _, peercert := range connstate.PeerCertificates`
(main.go 33-45), with `keyPinValid` threaded through.  `Except.error e` means
that `log.Fatal(e)` was reached. -/
def certLoop (lib : Lib) (fingerprints : List Bytes) :
    List Certificate → Bool → List Call × Except GoError Bool
  | [], keyPinValid => ([], Except.ok keyPinValid)
  | peercert :: rest, keyPinValid =>
    let m := lib.MarshalPKIXPublicKey peercert.PublicKey
    let der := m.1
    let hash := lib.Sum256 der
    match m.2 with
    | some err =>
      ([Call.MarshalPKIXPublicKey peercert.PublicKey, Call.Sum256 der, Call.logFatal err],
        Except.error err)
    | none =>
      let inner := fingerprintLoop hash fingerprints keyPinValid
      let r := certLoop lib fingerprints rest inner.2
      (Call.MarshalPKIXPublicKey peercert.PublicKey :: Call.Sum256 der :: (inner.1 ++ r.1), r.2)

/-- The text of the error made at main.go 48. -/
def pinnedKeyNotFound : String := " Pinned Key not found"

/-- The dialer of main.go 19-52: `makeDialer(fingerprints, skipCAVerification)`
applied to `(network, addr)`. -/
def makeDialer (lib : Lib) (fingerprints : List Bytes) (skipCAVerification : Bool)
    (network addr : String) : List Call × Outcome :=
  let cfg : Config := ⟨skipCAVerification⟩
  let d := lib.tlsDial network addr cfg
  match d.2 with
  | some err => ([Call.tlsDial network addr cfg], Outcome.ret d.1 (some err))
  | none =>
    match d.1 with
    | none => ([Call.tlsDial network addr cfg], Outcome.nilDeref)
    | some c =>
      let connstate := c.state
      let r := certLoop lib fingerprints connstate.PeerCertificates false
      match r.2 with
      | Except.error err =>
        (Call.tlsDial network addr cfg :: Call.ConnectionState c :: r.1, Outcome.fatal err)
      | Except.ok keyPinValid =>
        if !keyPinValid then
          (Call.tlsDial network addr cfg :: Call.ConnectionState c ::
              (r.1 ++ [Call.errorsNew pinnedKeyNotFound]),
            Outcome.ret (some c) (some (errorsNew pinnedKeyNotFound)))
        else
          (Call.tlsDial network addr cfg :: Call.ConnectionState c :: r.1,
            Outcome.ret (some c) none)

/-! ## Vocabulary of the properties -/

/-- The fingerprint of a certificate: `sha256.Sum256` of the encoding of its
public key. -/
def fingerprintOf (lib : Lib) (cert : Certificate) : Bytes :=
  lib.Sum256 (lib.MarshalPKIXPublicKey cert.PublicKey).1

/-- The public key of the certificate encodes: `MarshalPKIXPublicKey` returns
a nil error. -/
def encodable (lib : Lib) (cert : Certificate) : Prop :=
  (lib.MarshalPKIXPublicKey cert.PublicKey).2 = none

instance (lib : Lib) (cert : Certificate) : Decidable (encodable lib cert) := by
  unfold encodable; infer_instance

/-- The certificate matches the fingerprint list: its fingerprint is a member. -/
def matchesPin (lib : Lib) (fingerprints : List Bytes) (cert : Certificate) : Prop :=
  fingerprintOf lib cert ∈ fingerprints

instance (lib : Lib) (F : List Bytes) (cert : Certificate) : Decidable (matchesPin lib F cert) := by
  unfold matchesPin; infer_instance

/-- The error returned at main.go 48. -/
def pinMismatch : GoError := errorsNew pinnedKeyNotFound

/-- The handshake from `(network, addr)` under `skip` succeeds with
connection `c`. -/
def handshakeOk (lib : Lib) (skip : Bool) (network addr : String) (c : TlsConn) : Prop :=
  lib.tlsDial network addr ⟨skip⟩ = (some c, none)

instance (lib : Lib) (skip : Bool) (network addr : String) (c : TlsConn) :
    Decidable (handshakeOk lib skip network addr c) := by
  unfold handshakeOk; infer_instance

/-- The outcome with the connection handle forgotten. -/
def Outcome.verdict : Outcome → Outcome
  | Outcome.ret _ err => Outcome.ret none err
  | o => o

/-- The comparisons made for one digest: `bytes.Equal` against the
fingerprints in list order, up to and including the first equal one. -/
def compareCalls (hash : Bytes) (fingerprints : List Bytes) : List Call :=
  (fingerprints.takeWhile (fun f => !bytesEqual hash f)).map (Call.bytesEqual hash)
    ++ (fingerprints.find? (fun f => bytesEqual hash f)).toList.map (Call.bytesEqual hash)

/-- The calls made for one certificate whose key encodes: the key is encoded,
the encoding is hashed, the digest is compared. -/
def scanCalls (lib : Lib) (fingerprints : List Bytes) (cert : Certificate) : List Call :=
  [Call.MarshalPKIXPublicKey cert.PublicKey,
    Call.Sum256 (lib.MarshalPKIXPublicKey cert.PublicKey).1]
    ++ compareCalls (fingerprintOf lib cert) fingerprints

/-- The calls made for a list of certificates whose keys encode, one
certificate after the other in list order. -/
def chainCalls (lib : Lib) (fingerprints : List Bytes) : List Certificate → List Call
  | [] => []
  | cert :: rest => scanCalls lib fingerprints cert ++ chainCalls lib fingerprints rest

/-! ## A concrete world for evaluation -/

/-- Certificates used in the examples; key 0 does not encode. -/
def certA : Certificate := ⟨1⟩
def certB : Certificate := ⟨2⟩
def certC : Certificate := ⟨3⟩
def certU : Certificate := ⟨0⟩

def demoMarshalErr : GoError := ⟨"*errors.errorString", "x509: unsupported public key type: *dsa.PublicKey"⟩
def demoDialErr : GoError := ⟨"*net.OpError", "dial tcp 127.0.0.1:1: connect: connection refused"⟩
def demoTlsErr : GoError :=
  ⟨"*errors.errorString", "tls: either ServerName or InsecureSkipVerify must be specified in the tls.Config"⟩

/-- A toy stand-in for the digest: 32 bytes, each the byte sum of the input. -/
def demoSum256 (der : Bytes) : Bytes := List.replicate 32 (der.sum % 256)

/-- A toy world: the address selects the chain that the peer presents. -/
def demoLib : Lib where
  tlsDial := fun _ addr cfg =>
    if addr = "ba" then (some ⟨1, ⟨[certB, certA]⟩⟩, none)
    else if addr = "bc" then (some ⟨2, ⟨[certB, certC]⟩⟩, none)
    else if addr = "au" then (some ⟨3, ⟨[certA, certU]⟩⟩, none)
    else if addr = "a" then (some ⟨4, ⟨[certA]⟩⟩, none)
    else if addr = "bu" then (some ⟨5, ⟨[certB, certU]⟩⟩, none)
    else if addr = "bac" then (some ⟨6, ⟨[certB, certA, certC]⟩⟩, none)
    else if addr = ":443" then
      (if cfg.InsecureSkipVerify then (some ⟨8, ⟨[certC]⟩⟩, none) else (none, some demoTlsErr))
    else (none, some demoDialErr)
  MarshalPKIXPublicKey := fun pub =>
    if pub = 0 then ([], some demoMarshalErr) else ([48, pub], none)
  Sum256 := demoSum256

def fpA : Bytes := fingerprintOf demoLib certA

/-! ## Lemmas on the two loops -/

theorem fingerprintLoop_snd (hash : Bytes) (F : List Bytes) (k : Bool) :
    (fingerprintLoop hash F k).2 = (k || decide (hash ∈ F)) := by
  induction F with
  | nil => simp [fingerprintLoop]
  | cons f rest ih =>
    by_cases h : hash = f
    · simp [fingerprintLoop, bytesEqual, h]
    · simp [fingerprintLoop, bytesEqual, h, ih]

theorem certLoop_cons_none (lib : Lib) (F : List Bytes) (cert : Certificate)
    (rest : List Certificate) (k : Bool) (h : encodable lib cert) :
    (certLoop lib F (cert :: rest) k).2
      = (certLoop lib F rest (k || decide (matchesPin lib F cert))).2 := by
  unfold encodable at h
  simp only [certLoop, h, fingerprintLoop_snd, matchesPin, fingerprintOf]

theorem certLoop_cons_some (lib : Lib) (F : List Bytes) (cert : Certificate)
    (rest : List Certificate) (k : Bool) (e : GoError)
    (h : (lib.MarshalPKIXPublicKey cert.PublicKey).2 = some e) :
    (certLoop lib F (cert :: rest) k).2 = Except.error e := by
  simp only [certLoop, h]

theorem certLoop_snd_enc (lib : Lib) (F : List Bytes) (certs : List Certificate) (k : Bool)
    (henc : ∀ cert ∈ certs, encodable lib cert) :
    (certLoop lib F certs k).2
      = Except.ok (k || decide (∃ cert ∈ certs, matchesPin lib F cert)) := by
  induction certs generalizing k with
  | nil => simp [certLoop]
  | cons cert rest ih =>
    rw [certLoop_cons_none lib F cert rest k (henc cert (List.mem_cons_self _ _)),
      ih _ (fun x hx => henc x (List.mem_cons_of_mem _ hx))]
    simp [Bool.or_assoc]

theorem certLoop_snd_fatal (lib : Lib) (F : List Bytes) (P S : List Certificate)
    (u : Certificate) (k : Bool) (e : GoError)
    (henc : ∀ cert ∈ P, encodable lib cert)
    (hu : (lib.MarshalPKIXPublicKey u.PublicKey).2 = some e) :
    (certLoop lib F (P ++ u :: S) k).2 = Except.error e := by
  induction P generalizing k with
  | nil => simpa using certLoop_cons_some lib F u S k e hu
  | cons cert rest ih =>
    rw [List.cons_append, certLoop_cons_none lib F cert _ k (henc cert (List.mem_cons_self _ _))]
    exact ih _ (fun x hx => henc x (List.mem_cons_of_mem _ hx))

theorem certLoop_snd_congr (lib : Lib) (F F' : List Bytes) (certs : List Certificate) (k : Bool)
    (hF : ∀ x, x ∈ F ↔ x ∈ F') :
    (certLoop lib F certs k).2 = (certLoop lib F' certs k).2 := by
  induction certs generalizing k with
  | nil => simp [certLoop]
  | cons cert rest ih =>
    cases hm : (lib.MarshalPKIXPublicKey cert.PublicKey).2 with
    | some e => rw [certLoop_cons_some lib F cert rest k e hm, certLoop_cons_some lib F' cert rest k e hm]
    | none =>
      rw [certLoop_cons_none lib F cert rest k hm, certLoop_cons_none lib F' cert rest k hm]
      have : decide (matchesPin lib F cert) = decide (matchesPin lib F' cert) := by
        simp only [matchesPin, hF]
      rw [this]
      exact ih _

theorem certLoop_ok_true (lib : Lib) (F : List Bytes) (certs : List Certificate) (k : Bool)
    (h : (certLoop lib F certs k).2 = Except.ok true) :
    k = true ∨ ∃ cert ∈ certs, matchesPin lib F cert := by
  induction certs generalizing k with
  | nil => left; simpa [certLoop] using h
  | cons cert rest ih =>
    cases hm : (lib.MarshalPKIXPublicKey cert.PublicKey).2 with
    | some e => rw [certLoop_cons_some lib F cert rest k e hm] at h; cases h
    | none =>
      rw [certLoop_cons_none lib F cert rest k hm] at h
      rcases ih _ h with h1 | ⟨x, hx, hx2⟩
      · rcases Bool.or_eq_true _ _ |>.mp h1 with h2 | h2
        · exact Or.inl h2
        · exact Or.inr ⟨cert, List.mem_cons_self _ _, of_decide_eq_true h2⟩
      · exact Or.inr ⟨x, List.mem_cons_of_mem _ hx, hx2⟩

/-! ## Lemmas on the dialer -/

theorem makeDialer_snd_ok (lib : Lib) (F : List Bytes) (skip : Bool) (network addr : String)
    (c : TlsConn) (b : Bool) (hok : handshakeOk lib skip network addr c)
    (h : (certLoop lib F c.state.PeerCertificates false).2 = Except.ok b) :
    (makeDialer lib F skip network addr).2
      = if b then Outcome.ret (some c) none else Outcome.ret (some c) (some pinMismatch) := by
  unfold handshakeOk at hok
  cases b <;> simp [makeDialer, hok, h, pinMismatch]

theorem makeDialer_snd_fatal (lib : Lib) (F : List Bytes) (skip : Bool) (network addr : String)
    (c : TlsConn) (e : GoError) (hok : handshakeOk lib skip network addr c)
    (h : (certLoop lib F c.state.PeerCertificates false).2 = Except.error e) :
    (makeDialer lib F skip network addr).2 = Outcome.fatal e := by
  unfold handshakeOk at hok
  simp [makeDialer, hok, h]

/-- Soundness of the pin check: a returned pair `(c, nil)` always comes from a
successful handshake whose chain holds a matching certificate. -/
theorem makeDialer_success_sound (lib : Lib) (F : List Bytes) (skip : Bool)
    (network addr : String) (c' : Option TlsConn)
    (h : (makeDialer lib F skip network addr).2 = Outcome.ret c' none) :
    ∃ c, handshakeOk lib skip network addr c ∧ c' = some c ∧
      ∃ cert ∈ c.state.PeerCertificates, matchesPin lib F cert := by
  cases hd2 : (lib.tlsDial network addr ⟨skip⟩).2 with
  | some e => simp [makeDialer, hd2] at h
  | none =>
    cases hd1 : (lib.tlsDial network addr ⟨skip⟩).1 with
    | none => simp [makeDialer, hd2, hd1] at h
    | some c =>
      have hok : handshakeOk lib skip network addr c := by
        unfold handshakeOk
        exact Prod.ext hd1 hd2
      cases hl : (certLoop lib F c.state.PeerCertificates false).2 with
      | error e =>
        rw [makeDialer_snd_fatal lib F skip network addr c e hok hl] at h
        cases h
      | ok b =>
        rw [makeDialer_snd_ok lib F skip network addr c b hok hl] at h
        cases b with
        | false => simp at h
        | true =>
          simp only [if_true, Outcome.ret.injEq, and_true] at h
          rcases certLoop_ok_true lib F _ false hl with h0 | hm
          · cases h0
          · exact ⟨c, hok, h.symm, hm⟩

/-! ## Lemmas on the call list -/

theorem fingerprintLoop_calls (hash : Bytes) (F : List Bytes) (k : Bool) :
    ∀ x ∈ (fingerprintLoop hash F k).1, ∃ a b, x = Call.bytesEqual a b := by
  induction F with
  | nil => simp [fingerprintLoop]
  | cons f rest ih =>
    intro x hx
    by_cases h : bytesEqual hash f = true
    · simp only [fingerprintLoop, h, if_true, List.mem_singleton] at hx
      exact ⟨_, _, hx⟩
    · have h' : bytesEqual hash f = false := by simpa using h
      rw [fingerprintLoop, h'] at hx
      rcases List.mem_cons.mp hx with hx | hx
      · exact ⟨_, _, hx⟩
      · exact ih x hx

theorem certLoop_cons_none_fst (lib : Lib) (F : List Bytes) (cert : Certificate)
    (rest : List Certificate) (k : Bool) (h : encodable lib cert) :
    (certLoop lib F (cert :: rest) k).1
      = Call.MarshalPKIXPublicKey cert.PublicKey ::
          Call.Sum256 (lib.MarshalPKIXPublicKey cert.PublicKey).1 ::
          ((fingerprintLoop (fingerprintOf lib cert) F k).1
            ++ (certLoop lib F rest (k || decide (matchesPin lib F cert))).1) := by
  unfold encodable at h
  simp only [certLoop, h, fingerprintLoop_snd, matchesPin, fingerprintOf]

theorem certLoop_cons_some_fst (lib : Lib) (F : List Bytes) (cert : Certificate)
    (rest : List Certificate) (k : Bool) (e : GoError)
    (h : (lib.MarshalPKIXPublicKey cert.PublicKey).2 = some e) :
    (certLoop lib F (cert :: rest) k).1
      = [Call.MarshalPKIXPublicKey cert.PublicKey,
          Call.Sum256 (lib.MarshalPKIXPublicKey cert.PublicKey).1, Call.logFatal e] := by
  simp only [certLoop, h]

theorem certLoop_no_connClose (lib : Lib) (F : List Bytes) (certs : List Certificate) (k : Bool)
    (c' : TlsConn) : Call.connClose c' ∉ (certLoop lib F certs k).1 := by
  induction certs generalizing k with
  | nil => simp [certLoop]
  | cons cert rest ih =>
    cases hm : (lib.MarshalPKIXPublicKey cert.PublicKey).2 with
    | some e => rw [certLoop_cons_some_fst lib F cert rest k e hm]; simp
    | none =>
      rw [certLoop_cons_none_fst lib F cert rest k hm]
      intro hx
      simp only [List.mem_cons, List.mem_append] at hx
      rcases hx with hx | hx | hx | hx
      · cases hx
      · cases hx
      · obtain ⟨a, b, hab⟩ := fingerprintLoop_calls _ _ _ _ hx
        cases hab
      · exact ih _ hx

theorem fingerprintLoop_fst (hash : Bytes) (F : List Bytes) (k : Bool) :
    (fingerprintLoop hash F k).1 = compareCalls hash F := by
  induction F with
  | nil => simp [fingerprintLoop, compareCalls]
  | cons f rest ih =>
    cases h : bytesEqual hash f with
    | true => simp [fingerprintLoop, compareCalls, h]
    | false =>
      simp only [compareCalls] at ih
      simp [fingerprintLoop, compareCalls, h, ih]

theorem chainCalls_append (lib : Lib) (F : List Bytes) (xs ys : List Certificate) :
    chainCalls lib F (xs ++ ys) = chainCalls lib F xs ++ chainCalls lib F ys := by
  induction xs with
  | nil => simp [chainCalls]
  | cons x rest ih => simp [chainCalls, ih]

theorem certLoop_fst_enc (lib : Lib) (F : List Bytes) (certs : List Certificate) (k : Bool)
    (henc : ∀ cert ∈ certs, encodable lib cert) :
    (certLoop lib F certs k).1 = chainCalls lib F certs := by
  induction certs generalizing k with
  | nil => simp [certLoop, chainCalls]
  | cons cert rest ih =>
    rw [certLoop_cons_none_fst lib F cert rest k (henc cert (List.mem_cons_self _ _)),
      ih _ (fun x hx => henc x (List.mem_cons_of_mem _ hx)), fingerprintLoop_fst]
    simp [chainCalls, scanCalls]

theorem certLoop_fst_fatal (lib : Lib) (F : List Bytes) (P S : List Certificate)
    (u : Certificate) (k : Bool) (e : GoError)
    (henc : ∀ cert ∈ P, encodable lib cert)
    (hu : (lib.MarshalPKIXPublicKey u.PublicKey).2 = some e) :
    (certLoop lib F (P ++ u :: S) k).1
      = chainCalls lib F P ++ [Call.MarshalPKIXPublicKey u.PublicKey,
          Call.Sum256 (lib.MarshalPKIXPublicKey u.PublicKey).1, Call.logFatal e] := by
  induction P generalizing k with
  | nil => simpa [chainCalls] using certLoop_cons_some_fst lib F u S k e hu
  | cons cert rest ih =>
    rw [List.cons_append, certLoop_cons_none_fst lib F cert _ k (henc cert (List.mem_cons_self _ _)),
      ih _ (fun x hx => henc x (List.mem_cons_of_mem _ hx)), fingerprintLoop_fst]
    simp [chainCalls, scanCalls]

theorem makeDialer_fst_of_handshakeOk (lib : Lib) (F : List Bytes) (skip : Bool)
    (network addr : String) (c : TlsConn) (hok : handshakeOk lib skip network addr c) :
    ∃ post, (makeDialer lib F skip network addr).1
      = Call.tlsDial network addr ⟨skip⟩ :: Call.ConnectionState c ::
          ((certLoop lib F c.state.PeerCertificates false).1 ++ post) ∧
      (post = [] ∨ post = [Call.errorsNew pinnedKeyNotFound]) := by
  unfold handshakeOk at hok
  cases hr : (certLoop lib F c.state.PeerCertificates false).2 with
  | error e => exact ⟨[], by simp [makeDialer, hok, hr], Or.inl rfl⟩
  | ok b =>
    cases b with
    | false => exact ⟨[Call.errorsNew pinnedKeyNotFound], by simp [makeDialer, hok, hr], Or.inr rfl⟩
    | true => exact ⟨[], by simp [makeDialer, hok, hr], Or.inl rfl⟩

theorem makeDialer_no_connClose (lib : Lib) (F : List Bytes) (skip : Bool)
    (network addr : String) (c' : TlsConn) :
    Call.connClose c' ∉ (makeDialer lib F skip network addr).1 := by
  cases hd2 : (lib.tlsDial network addr ⟨skip⟩).2 with
  | some e => simp [makeDialer, hd2]
  | none =>
    cases hd1 : (lib.tlsDial network addr ⟨skip⟩).1 with
    | none => simp [makeDialer, hd2, hd1]
    | some c =>
      have hok : handshakeOk lib skip network addr c := by
        unfold handshakeOk
        exact Prod.ext hd1 hd2
      obtain ⟨post, hpost, hp⟩ := makeDialer_fst_of_handshakeOk lib F skip network addr c hok
      have hl := certLoop_no_connClose lib F c.state.PeerCertificates false c'
      rw [hpost]
      rcases hp with hp | hp <;> simp [hp, hl]

/-! ## The pin check decides the outcome (C1) -/

/-- C1: after a successful handshake with connection `c` whose certificates
all have an encodable public key, the dialer returns `(c, nil)` exactly when
some certificate of the chain has a digest equal to a member of the
fingerprint list, and otherwise it returns the pin-mismatch error. -/
theorem C1_connection_iff_pinned (lib : Lib) (F : List Bytes) (skip : Bool)
    (network addr : String) (c : TlsConn)
    (hok : handshakeOk lib skip network addr c)
    (henc : ∀ cert ∈ c.state.PeerCertificates, encodable lib cert) :
    ((makeDialer lib F skip network addr).2 = Outcome.ret (some c) none ↔
        ∃ cert ∈ c.state.PeerCertificates, ∃ f ∈ F,
          lib.Sum256 (lib.MarshalPKIXPublicKey cert.PublicKey).1 = f) ∧
      ((¬ ∃ cert ∈ c.state.PeerCertificates, ∃ f ∈ F,
          lib.Sum256 (lib.MarshalPKIXPublicKey cert.PublicKey).1 = f) →
        ∃ m, (makeDialer lib F skip network addr).2 = Outcome.ret (some c) (some m) ∧
          m = errorsNew " Pinned Key not found") := by
  have hloop := certLoop_snd_enc lib F c.state.PeerCertificates false henc
  have hd := makeDialer_snd_ok lib F skip network addr c _ hok hloop
  have hex : (∃ cert ∈ c.state.PeerCertificates, ∃ f ∈ F,
      lib.Sum256 (lib.MarshalPKIXPublicKey cert.PublicKey).1 = f) ↔
      ∃ cert ∈ c.state.PeerCertificates, matchesPin lib F cert := by
    simp [matchesPin, fingerprintOf]
  rw [hex, hd]
  by_cases hm : ∃ cert ∈ c.state.PeerCertificates, matchesPin lib F cert
  · simp [hm]
  · simp [hm, pinMismatch, pinnedKeyNotFound]

/-- C1, evaluated: with the pin of `certA`, the chain `[certB, certA]` is
accepted and the chain `[certB, certC]` is rejected. -/
theorem C1_connection_iff_pinned_witness :
    (handshakeOk demoLib false "tcp" "ba" ⟨1, ⟨[certB, certA]⟩⟩ ∧
      (∀ cert ∈ [certB, certA], encodable demoLib cert) ∧
      (makeDialer demoLib [fpA] false "tcp" "ba").2
        = Outcome.ret (some ⟨1, ⟨[certB, certA]⟩⟩) none) ∧
    (handshakeOk demoLib false "tcp" "bc" ⟨2, ⟨[certB, certC]⟩⟩ ∧
      (∀ cert ∈ [certB, certC], encodable demoLib cert) ∧
      ∃ m, (makeDialer demoLib [fpA] false "tcp" "bc").2
          = Outcome.ret (some ⟨2, ⟨[certB, certC]⟩⟩) (some m) ∧
        m = errorsNew " Pinned Key not found") :=
  ⟨⟨rfl, by decide,
      (C1_connection_iff_pinned demoLib [fpA] false "tcp" "ba" ⟨1, ⟨[certB, certA]⟩⟩ rfl
        (by decide)).1.2 ⟨certA, by decide, fpA, by decide, rfl⟩⟩,
    ⟨rfl, by decide,
      (C1_connection_iff_pinned demoLib [fpA] false "tcp" "bc" ⟨2, ⟨[certB, certC]⟩⟩ rfl
        (by decide)).2 (by decide)⟩⟩

/-! ## Handshake failure (C5) -/

/-- C5: when `tls.Dial` returns an error, the dialer returns the pair that
`tls.Dial` returned, the only library call performed is that `tls.Dial` (no
key is encoded, hashed or compared), and the result is the same for every
fingerprint list. -/
theorem C5_handshake_error_propagated (lib : Lib) (F : List Bytes) (skip : Bool)
    (network addr : String) (e : GoError)
    (herr : (lib.tlsDial network addr ⟨skip⟩).2 = some e) :
    makeDialer lib F skip network addr
        = ([Call.tlsDial network addr ⟨skip⟩],
            Outcome.ret (lib.tlsDial network addr ⟨skip⟩).1 (some e)) ∧
      ∀ F' : List Bytes, makeDialer lib F' skip network addr = makeDialer lib F skip network addr := by
  have h : ∀ G : List Bytes, makeDialer lib G skip network addr
      = ([Call.tlsDial network addr ⟨skip⟩],
          Outcome.ret (lib.tlsDial network addr ⟨skip⟩).1 (some e)) := by
    intro G
    simp [makeDialer, herr]
  exact ⟨h F, fun F' => (h F').trans (h F).symm⟩

/-- C5, evaluated on a refused connection. -/
theorem C5_handshake_error_propagated_witness :
    (demoLib.tlsDial "tcp" "refused:1" ⟨false⟩).2 = some demoDialErr ∧
      makeDialer demoLib [fpA] false "tcp" "refused:1"
        = ([Call.tlsDial "tcp" "refused:1" ⟨false⟩], Outcome.ret none (some demoDialErr)) :=
  ⟨rfl, (C5_handshake_error_propagated demoLib [fpA] false "tcp" "refused:1" demoDialErr rfl).1⟩

/-! ## Order of the fingerprint list (C8) -/

/-- C8: two fingerprint lists that are permutations of one another, or that
have the same members, give the same outcome on every network and address,
whatever the handshake delivers. -/
theorem C8_fingerprint_order_irrelevant (lib : Lib) (F F' : List Bytes) (skip : Bool)
    (network addr : String)
    (hF : F.Perm F' ∨ ∀ x, x ∈ F ↔ x ∈ F') :
    (makeDialer lib F skip network addr).2 = (makeDialer lib F' skip network addr).2 := by
  have hmem : ∀ x, x ∈ F ↔ x ∈ F' := by
    rcases hF with hp | hm
    · exact fun x => hp.mem_iff
    · exact hm
  have hloop := fun certs => certLoop_snd_congr lib F F' certs false hmem
  simp only [makeDialer]
  cases hd2 : (lib.tlsDial network addr ⟨skip⟩).2 with
  | some e => simp
  | none =>
    cases hd1 : (lib.tlsDial network addr ⟨skip⟩).1 with
    | none => simp
    | some c =>
      simp only [hloop]
      cases (certLoop lib F' c.state.PeerCertificates false).2 with
      | error e => simp
      | ok b => cases b <;> simp

/-- C8, evaluated on a reordered list with a duplicate. -/
theorem C8_fingerprint_order_irrelevant_witness :
    (∀ x, x ∈ [fpA, fingerprintOf demoLib certC] ↔ x ∈ [fingerprintOf demoLib certC, fpA, fpA]) ∧
      (makeDialer demoLib [fpA, fingerprintOf demoLib certC] false "tcp" "ba").2
        = (makeDialer demoLib [fingerprintOf demoLib certC, fpA, fpA] false "tcp" "ba").2 :=
  ⟨by intro x; simp [or_comm],
    C8_fingerprint_order_irrelevant demoLib [fpA, fingerprintOf demoLib certC]
      [fingerprintOf demoLib certC, fpA, fpA] false "tcp" "ba"
      (Or.inr (by intro x; simp [or_comm]))⟩

/-! ## Monotonicity (C10) -/

/-- C10: if every fingerprint of `F` is in `F'`, the chain of `c` is a sublist
of the chain of `c'`, all keys of the larger chain encode, and the dialer
built from `F` succeeds on `c`, then the dialer built from `F'` succeeds on
`c'`. -/
theorem C10_pin_check_monotone (lib : Lib) (F F' : List Bytes) (skip skip' : Bool)
    (network addr network' addr' : String) (c c' : TlsConn)
    (hok : handshakeOk lib skip network addr c)
    (hok' : handshakeOk lib skip' network' addr' c')
    (hF : ∀ x ∈ F, x ∈ F')
    (hsub : c.state.PeerCertificates.Sublist c'.state.PeerCertificates)
    (henc : ∀ cert ∈ c'.state.PeerCertificates, encodable lib cert)
    (hsucc : (makeDialer lib F skip network addr).2 = Outcome.ret (some c) none) :
    (makeDialer lib F' skip' network' addr').2 = Outcome.ret (some c') none := by
  have henc0 : ∀ cert ∈ c.state.PeerCertificates, encodable lib cert :=
    fun x hx => henc x (hsub.subset hx)
  rw [makeDialer_snd_ok lib F skip network addr c _ hok
    (certLoop_snd_enc lib F _ false henc0)] at hsucc
  rw [makeDialer_snd_ok lib F' skip' network' addr' c' _ hok'
    (certLoop_snd_enc lib F' _ false henc)]
  by_cases hm : ∃ cert ∈ c.state.PeerCertificates, matchesPin lib F cert
  · obtain ⟨x, hx, hx2⟩ := hm
    have : ∃ cert ∈ c'.state.PeerCertificates, matchesPin lib F' cert :=
      ⟨x, hsub.subset hx, hF _ hx2⟩
    simp [this]
  · simp [hm] at hsucc

/-- C10, evaluated: from the chain `[certA]` with one pin to the chain
`[certB, certA, certC]` with two pins. -/
theorem C10_pin_check_monotone_witness :
    handshakeOk demoLib false "tcp" "a" ⟨4, ⟨[certA]⟩⟩ ∧
      handshakeOk demoLib true "tcp" "bac" ⟨6, ⟨[certB, certA, certC]⟩⟩ ∧
      (makeDialer demoLib [fpA] false "tcp" "a").2 = Outcome.ret (some ⟨4, ⟨[certA]⟩⟩) none ∧
      (makeDialer demoLib [fingerprintOf demoLib certU, fpA] true "tcp" "bac").2
        = Outcome.ret (some ⟨6, ⟨[certB, certA, certC]⟩⟩) none :=
  ⟨rfl, rfl, by decide,
    C10_pin_check_monotone demoLib [fpA] [fingerprintOf demoLib certU, fpA] false true
      "tcp" "a" "tcp" "bac" ⟨4, ⟨[certA]⟩⟩ ⟨6, ⟨[certB, certA, certC]⟩⟩ rfl rfl
      (by intro x hx; simp at hx; simp [hx])
      (by decide) (by decide) (by decide)⟩

/-! ## What is returned on a pin mismatch (C2) -/

/-- C2, as stated, fails: on the chain `[certB, certC]` with the pin of
`certA` the dialer returns the connection handle together with the error (it
is not the pair with a nil connection), and on the chain `[certB, certU]`,
which has no matching certificate either, it returns nothing at all because
`log.Fatal` ends the process. -/
theorem C2_counterexample :
    (handshakeOk demoLib false "tcp" "bc" ⟨2, ⟨[certB, certC]⟩⟩ ∧
      (¬ ∃ cert ∈ [certB, certC], matchesPin demoLib [fpA] cert) ∧
      (makeDialer demoLib [fpA] false "tcp" "bc").2
        = Outcome.ret (some ⟨2, ⟨[certB, certC]⟩⟩) (some pinMismatch) ∧
      (makeDialer demoLib [fpA] false "tcp" "bc").2 ≠ Outcome.ret none (some pinMismatch)) ∧
    (handshakeOk demoLib false "tcp" "bu" ⟨5, ⟨[certB, certU]⟩⟩ ∧
      encodable demoLib certB ∧
      (¬ ∃ cert ∈ [certB, certU], matchesPin demoLib [fpA] cert) ∧
      (makeDialer demoLib [fpA] false "tcp" "bu").2 = Outcome.fatal demoMarshalErr) := by
  decide

/-- C2, amended: after a successful handshake whose chain has only encodable
keys and no certificate matching the fingerprint list, the dialer returns the
pin-mismatch error together with the connection of the handshake, and it has
not closed that connection (no `Close` call occurs among its library calls). -/
theorem C2_mismatch_returns_conn_and_error (lib : Lib) (F : List Bytes) (skip : Bool)
    (network addr : String) (c : TlsConn)
    (hok : handshakeOk lib skip network addr c)
    (henc : ∀ cert ∈ c.state.PeerCertificates, encodable lib cert)
    (hno : ¬ ∃ cert ∈ c.state.PeerCertificates, matchesPin lib F cert) :
    (makeDialer lib F skip network addr).2
        = Outcome.ret (some c) (some (errorsNew " Pinned Key not found")) ∧
      ∀ c', Call.connClose c' ∉ (makeDialer lib F skip network addr).1 := by
  refine ⟨?_, fun c' => makeDialer_no_connClose lib F skip network addr c'⟩
  rw [makeDialer_snd_ok lib F skip network addr c _ hok
    (certLoop_snd_enc lib F _ false henc)]
  simp [hno, pinMismatch, pinnedKeyNotFound]

/-- C2 amended, evaluated on the chain `[certB, certC]`. -/
theorem C2_mismatch_returns_conn_and_error_witness :
    handshakeOk demoLib false "tcp" "bc" ⟨2, ⟨[certB, certC]⟩⟩ ∧
      (∀ cert ∈ [certB, certC], encodable demoLib cert) ∧
      (¬ ∃ cert ∈ [certB, certC], matchesPin demoLib [fpA] cert) ∧
      (makeDialer demoLib [fpA] false "tcp" "bc").2
        = Outcome.ret (some ⟨2, ⟨[certB, certC]⟩⟩) (some (errorsNew " Pinned Key not found")) :=
  ⟨rfl, by decide, by decide,
    (C2_mismatch_returns_conn_and_error demoLib [fpA] false "tcp" "bc" ⟨2, ⟨[certB, certC]⟩⟩
      rfl (by decide) (by decide)).1⟩

/-! ## A public key that does not encode (C3) -/

/-- C3, as stated, fails: on the chain `[certB, certU]`, whose second key does
not encode, the dialer does not return to its caller; after `certB` has been
encoded, hashed and compared, `log.Fatal` is called with the encoding error
of `certU` and the process exits. -/
theorem C3_counterexample :
    handshakeOk demoLib false "tcp" "bu" ⟨5, ⟨[certB, certU]⟩⟩ ∧
      encodable demoLib certB ∧
      (demoLib.MarshalPKIXPublicKey certU.PublicKey).2 = some demoMarshalErr ∧
      makeDialer demoLib [fpA] false "tcp" "bu"
        = ([Call.tlsDial "tcp" "bu" ⟨false⟩, Call.ConnectionState ⟨5, ⟨[certB, certU]⟩⟩,
            Call.MarshalPKIXPublicKey 2, Call.Sum256 [48, 2],
            Call.bytesEqual (List.replicate 32 50) (List.replicate 32 49),
            Call.MarshalPKIXPublicKey 0, Call.Sum256 [], Call.logFatal demoMarshalErr],
          Outcome.fatal demoMarshalErr) ∧
      ∀ conn err, (makeDialer demoLib [fpA] false "tcp" "bu").2 ≠ Outcome.ret conn err := by
  refine ⟨rfl, by decide, rfl, by decide, ?_⟩
  intro conn err h
  have h2 : (makeDialer demoLib [fpA] false "tcp" "bu").2 = Outcome.fatal demoMarshalErr := by
    decide
  rw [h2] at h
  cases h

/-- C3, amended: after a successful handshake whose chain is `P ++ u :: S`
with every key of `P` encodable and the key of `u` not encodable (error `e`),
the dialer ends the process through `log.Fatal(e)` and returns nothing to the
caller.  Its calls are exactly: the handshake, `ConnectionState`, then for
every certificate of `P` in order the encoding, the digest and the
comparisons, then the encoding of the key of `u`, the digest of the result
and `log.Fatal(e)`; no certificate of `S` is touched. -/
theorem C3_unencodable_key_is_fatal (lib : Lib) (F : List Bytes) (skip : Bool)
    (network addr : String) (c : TlsConn) (P S : List Certificate) (u : Certificate)
    (e : GoError)
    (hok : handshakeOk lib skip network addr c)
    (hchain : c.state.PeerCertificates = P ++ u :: S)
    (henc : ∀ cert ∈ P, encodable lib cert)
    (hu : (lib.MarshalPKIXPublicKey u.PublicKey).2 = some e) :
    makeDialer lib F skip network addr
      = (Call.tlsDial network addr ⟨skip⟩ :: Call.ConnectionState c ::
          (chainCalls lib F P ++ [Call.MarshalPKIXPublicKey u.PublicKey,
            Call.Sum256 (lib.MarshalPKIXPublicKey u.PublicKey).1, Call.logFatal e]),
        Outcome.fatal e) := by
  have hl : (certLoop lib F c.state.PeerCertificates false).2 = Except.error e := by
    rw [hchain]
    exact certLoop_snd_fatal lib F P S u false e henc hu
  have ht := certLoop_fst_fatal lib F P S u false e henc hu
  rw [← hchain] at ht
  unfold handshakeOk at hok
  simp [makeDialer, hok, hl, ht]

/-- C3 amended, evaluated on the chain `[certA, certU]`. -/
theorem C3_unencodable_key_is_fatal_witness :
    handshakeOk demoLib false "tcp" "au" ⟨3, ⟨[certA, certU]⟩⟩ ∧
      (∀ cert ∈ [certA], encodable demoLib cert) ∧
      (demoLib.MarshalPKIXPublicKey certU.PublicKey).2 = some demoMarshalErr ∧
      makeDialer demoLib [fpA] false "tcp" "au"
        = (Call.tlsDial "tcp" "au" ⟨false⟩ :: Call.ConnectionState ⟨3, ⟨[certA, certU]⟩⟩ ::
            (chainCalls demoLib [fpA] [certA] ++ [Call.MarshalPKIXPublicKey certU.PublicKey,
              Call.Sum256 (demoLib.MarshalPKIXPublicKey certU.PublicKey).1,
              Call.logFatal demoMarshalErr]),
          Outcome.fatal demoMarshalErr) :=
  ⟨rfl, by decide, rfl,
    C3_unencodable_key_is_fatal demoLib [fpA] false "tcp" "au" ⟨3, ⟨[certA, certU]⟩⟩
      [certA] [] certU demoMarshalErr rfl rfl (by decide) rfl⟩

/-! ## The scan over the chain (C4) -/

/-- C4, as stated, fails: with the pin of `certA`, the chain `[certA]` is
accepted, but on the chain `[certA, certU]` (empty `P`, `m = certA`,
`S = [certU]`) the scan goes on after the match, the key of `certU` is
encoded and the result hashed, and `log.Fatal` ends the process instead of a
success. -/
theorem C4_counterexample :
    handshakeOk demoLib false "tcp" "au" ⟨3, ⟨[] ++ [certA] ++ [certU]⟩⟩ ∧
      handshakeOk demoLib false "tcp" "a" ⟨4, ⟨[] ++ [certA]⟩⟩ ∧
      (encodable demoLib certA ∧ matchesPin demoLib [fpA] certA) ∧
      (makeDialer demoLib [fpA] false "tcp" "a").2 = Outcome.ret (some ⟨4, ⟨[certA]⟩⟩) none ∧
      makeDialer demoLib [fpA] false "tcp" "au"
        = ([Call.tlsDial "tcp" "au" ⟨false⟩, Call.ConnectionState ⟨3, ⟨[certA, certU]⟩⟩,
            Call.MarshalPKIXPublicKey 1, Call.Sum256 [48, 1],
            Call.bytesEqual (List.replicate 32 49) (List.replicate 32 49),
            Call.MarshalPKIXPublicKey 0, Call.Sum256 [], Call.logFatal demoMarshalErr],
          Outcome.fatal demoMarshalErr) ∧
      (makeDialer demoLib [fpA] false "tcp" "au").2.verdict
        ≠ (makeDialer demoLib [fpA] false "tcp" "a").2.verdict := by
  decide

/-- C4, amended: the scan runs over the whole chain in presentation order and
does not stop at a match.  For a chain `P ++ [m] ++ S` where `P` holds
encodable certificates that do not match, `m` is encodable and matches, and
every key of `S` encodes, the dialer succeeds, as it does on `P ++ [m]`.  Its
calls on `P ++ [m] ++ S` are exactly: the handshake, `ConnectionState`, then
for every certificate of `P`, for `m`, and for every certificate of `S`, in
that order, the encoding of the key, the digest of the encoding and the
comparisons of the digest; on `P ++ [m]` they are the same without the part
for `S`. -/
theorem C4_scan_whole_chain (lib : Lib) (F : List Bytes) (skip skip' : Bool)
    (network addr network' addr' : String) (c c' : TlsConn)
    (P S : List Certificate) (m : Certificate)
    (hok : handshakeOk lib skip network addr c)
    (hok' : handshakeOk lib skip' network' addr' c')
    (hc : c.state.PeerCertificates = P ++ [m] ++ S)
    (hc' : c'.state.PeerCertificates = P ++ [m])
    (hP : ∀ cert ∈ P, encodable lib cert ∧ ¬ matchesPin lib F cert)
    (hm : encodable lib m ∧ matchesPin lib F m)
    (hS : ∀ cert ∈ S, encodable lib cert) :
    makeDialer lib F skip network addr
        = (Call.tlsDial network addr ⟨skip⟩ :: Call.ConnectionState c ::
            (chainCalls lib F P ++ scanCalls lib F m ++ chainCalls lib F S),
          Outcome.ret (some c) none) ∧
      makeDialer lib F skip' network' addr'
        = (Call.tlsDial network' addr' ⟨skip'⟩ :: Call.ConnectionState c' ::
            (chainCalls lib F P ++ scanCalls lib F m),
          Outcome.ret (some c') none) ∧
      (makeDialer lib F skip network addr).2.verdict
        = (makeDialer lib F skip' network' addr').2.verdict := by
  have henc : ∀ cert ∈ c.state.PeerCertificates, encodable lib cert := by
    intro x hx
    rw [hc] at hx
    simp only [List.mem_append, List.mem_singleton] at hx
    rcases hx with (hx | hx) | hx
    · exact (hP x hx).1
    · exact hx ▸ hm.1
    · exact hS x hx
  have henc' : ∀ cert ∈ c'.state.PeerCertificates, encodable lib cert := by
    intro x hx
    rw [hc'] at hx
    simp only [List.mem_append, List.mem_singleton] at hx
    rcases hx with hx | hx
    · exact (hP x hx).1
    · exact hx ▸ hm.1
  have hex : ∃ cert ∈ c.state.PeerCertificates, matchesPin lib F cert :=
    ⟨m, by rw [hc]; simp, hm.2⟩
  have hex' : ∃ cert ∈ c'.state.PeerCertificates, matchesPin lib F cert :=
    ⟨m, by rw [hc']; simp, hm.2⟩
  have hl := certLoop_snd_enc lib F _ false henc
  have hl' := certLoop_snd_enc lib F _ false henc'
  have ht : (certLoop lib F c.state.PeerCertificates false).1
      = chainCalls lib F P ++ scanCalls lib F m ++ chainCalls lib F S := by
    rw [certLoop_fst_enc lib F _ false henc, hc, chainCalls_append, chainCalls_append]
    simp [chainCalls]
  have ht' : (certLoop lib F c'.state.PeerCertificates false).1
      = chainCalls lib F P ++ scanCalls lib F m := by
    rw [certLoop_fst_enc lib F _ false henc', hc', chainCalls_append]
    simp [chainCalls]
  simp only [hex, hex', decide_True, Bool.or_true] at hl hl'
  have h1 : makeDialer lib F skip network addr
      = (Call.tlsDial network addr ⟨skip⟩ :: Call.ConnectionState c ::
          (chainCalls lib F P ++ scanCalls lib F m ++ chainCalls lib F S),
        Outcome.ret (some c) none) := by
    unfold handshakeOk at hok
    simp [makeDialer, hok, hl, ht]
  have h2 : makeDialer lib F skip' network' addr'
      = (Call.tlsDial network' addr' ⟨skip'⟩ :: Call.ConnectionState c' ::
          (chainCalls lib F P ++ scanCalls lib F m),
        Outcome.ret (some c') none) := by
    unfold handshakeOk at hok'
    simp [makeDialer, hok', hl', ht']
  exact ⟨h1, h2, by rw [h1, h2]; rfl⟩

/-- C4 amended, evaluated on the chains `[certB, certA, certC]` and
`[certB, certA]`: after the match on `certA` the key of `certC` is encoded,
hashed and compared. -/
theorem C4_scan_whole_chain_witness :
    handshakeOk demoLib false "tcp" "bac" ⟨6, ⟨[certB, certA, certC]⟩⟩ ∧
      handshakeOk demoLib false "tcp" "ba" ⟨1, ⟨[certB, certA]⟩⟩ ∧
      (∀ cert ∈ [certB], encodable demoLib cert ∧ ¬ matchesPin demoLib [fpA] cert) ∧
      (encodable demoLib certA ∧ matchesPin demoLib [fpA] certA) ∧
      (∀ cert ∈ [certC], encodable demoLib cert) ∧
      makeDialer demoLib [fpA] false "tcp" "bac"
        = (Call.tlsDial "tcp" "bac" ⟨false⟩ :: Call.ConnectionState ⟨6, ⟨[certB, certA, certC]⟩⟩ ::
            (chainCalls demoLib [fpA] [certB] ++ scanCalls demoLib [fpA] certA
              ++ chainCalls demoLib [fpA] [certC]),
          Outcome.ret (some ⟨6, ⟨[certB, certA, certC]⟩⟩) none) ∧
      chainCalls demoLib [fpA] [certC]
        = [Call.MarshalPKIXPublicKey 3, Call.Sum256 [48, 3],
            Call.bytesEqual (List.replicate 32 51) (List.replicate 32 49)] :=
  ⟨rfl, rfl, by decide, by decide, by decide,
    (C4_scan_whole_chain demoLib [fpA] false false "tcp" "bac" "tcp" "ba"
      ⟨6, ⟨[certB, certA, certC]⟩⟩ ⟨1, ⟨[certB, certA]⟩⟩ [certB] [certC] certA
      rfl rfl rfl rfl (by decide) (by decide) (by decide)).1,
    by decide⟩

/-! ## Skipping chain validation (C6) -/

/-- C7, as stated, fails: with the empty fingerprint list, on the chain
`[certB, certU]` the dialer does not yield the pin-mismatch error; `log.Fatal`
ends the process. -/
theorem C7_counterexample :
    handshakeOk demoLib false "tcp" "bu" ⟨5, ⟨[certB, certU]⟩⟩ ∧
      encodable demoLib certB ∧
      (makeDialer demoLib [] false "tcp" "bu").2 = Outcome.fatal demoMarshalErr ∧
      (makeDialer demoLib [] false "tcp" "bu").2
        ≠ Outcome.ret (some ⟨5, ⟨[certB, certU]⟩⟩) (some pinMismatch) := by
  decide

/-- C7, amended: with the empty fingerprint list the dialer never returns a
connection with a nil error, and after a successful handshake whose chain has
only encodable keys (the empty chain included) it returns the pin-mismatch
error. -/
theorem C7_empty_set_rejects (lib : Lib) (skip : Bool) (network addr : String) (c : TlsConn)
    (hok : handshakeOk lib skip network addr c)
    (henc : ∀ cert ∈ c.state.PeerCertificates, encodable lib cert) :
    (makeDialer lib [] skip network addr).2
        = Outcome.ret (some c) (some (errorsNew " Pinned Key not found")) ∧
      ∀ (skip' : Bool) (network' addr' : String) (conn : Option TlsConn),
        (makeDialer lib [] skip' network' addr').2 ≠ Outcome.ret conn none := by
  refine ⟨?_, ?_⟩
  · rw [makeDialer_snd_ok lib [] skip network addr c _ hok
      (certLoop_snd_enc lib [] _ false henc)]
    simp [matchesPin, pinMismatch, pinnedKeyNotFound]
  · intro skip' network' addr' conn h
    obtain ⟨c0, -, -, x, -, hx⟩ := makeDialer_success_sound lib [] skip' network' addr' conn h
    simp [matchesPin] at hx

/-- C7 amended, evaluated on the chain `[certB, certC]`: both keys are
encoded and hashed, nothing is compared, and the pin-mismatch error is
returned. -/
theorem C7_empty_set_rejects_witness :
    handshakeOk demoLib false "tcp" "bc" ⟨2, ⟨[certB, certC]⟩⟩ ∧
      (∀ cert ∈ [certB, certC], encodable demoLib cert) ∧
      (makeDialer demoLib [] false "tcp" "bc").2
        = Outcome.ret (some ⟨2, ⟨[certB, certC]⟩⟩) (some (errorsNew " Pinned Key not found")) ∧
      (makeDialer demoLib [] false "tcp" "bc").1
        = [Call.tlsDial "tcp" "bc" ⟨false⟩, Call.ConnectionState ⟨2, ⟨[certB, certC]⟩⟩,
            Call.MarshalPKIXPublicKey 2, Call.Sum256 [48, 2],
            Call.MarshalPKIXPublicKey 3, Call.Sum256 [48, 3],
            Call.errorsNew " Pinned Key not found"] :=
  ⟨rfl, by decide,
    (C7_empty_set_rejects demoLib false "tcp" "bc" ⟨2, ⟨[certB, certC]⟩⟩ rfl (by decide)).1,
    by decide⟩

/-! ## Telling the errors apart (C9) -/

/-- C9, as stated, fails: the handshake error propagated at address `:443`
and the error returned on the pin mismatch at `bc` have the same dynamic type
`*errors.errorString`; no error kind separates them. -/
theorem C9_counterexample :
    (makeDialer demoLib [fpA] false "tcp" ":443").2 = Outcome.ret none (some demoTlsErr) ∧
      (makeDialer demoLib [fpA] false "tcp" "bc").2
        = Outcome.ret (some ⟨2, ⟨[certB, certC]⟩⟩) (some pinMismatch) ∧
      demoTlsErr.dynType = pinMismatch.dynType := by
  decide

/-- C9, amended: the error returned on a pin mismatch is the value
`errors.New(" Pinned Key not found")`, of dynamic type `*errors.errorString`,
and a handshake error `e` is propagated unchanged.  The two have the same
dynamic type exactly when `e` is itself an `*errors.errorString`, and they
are the same error value exactly when `e` is an `*errors.errorString` with the
text " Pinned Key not found"; in every other case the dynamic type or the text
separates them. -/
theorem C9_mismatch_error_separation (lib : Lib) (F : List Bytes) (skip skip' : Bool)
    (network addr network' addr' : String) (e : GoError) (c : TlsConn)
    (herr : (lib.tlsDial network addr ⟨skip⟩).2 = some e)
    (hok : handshakeOk lib skip' network' addr' c)
    (henc : ∀ cert ∈ c.state.PeerCertificates, encodable lib cert)
    (hno : ¬ ∃ cert ∈ c.state.PeerCertificates, matchesPin lib F cert) :
    ∃ m, (makeDialer lib F skip' network' addr').2 = Outcome.ret (some c) (some m) ∧
      m = errorsNew " Pinned Key not found" ∧
      (makeDialer lib F skip network addr).2
        = Outcome.ret (lib.tlsDial network addr ⟨skip⟩).1 (some e) ∧
      (m.dynType = e.dynType ↔ e.dynType = "*errors.errorString") ∧
      (m = e ↔ e.dynType = "*errors.errorString" ∧ e.msg = " Pinned Key not found") ∧
      ((e.dynType ≠ m.dynType ∨ e.msg ≠ m.msg) ↔
        ¬ (e.dynType = "*errors.errorString" ∧ e.msg = " Pinned Key not found")) := by
  refine ⟨errorsNew " Pinned Key not found", ?_, rfl, ?_, ?_, ?_, ?_⟩
  · rw [makeDialer_snd_ok lib F skip' network' addr' c _ hok
      (certLoop_snd_enc lib F _ false henc)]
    simp [hno, pinMismatch, pinnedKeyNotFound]
  · simp [makeDialer, herr]
  · simp only [errorsNew]
    exact eq_comm
  · cases e with
    | mk t x =>
      simp only [errorsNew, GoError.mk.injEq]
      exact ⟨fun h => ⟨h.1.symm, h.2.symm⟩, fun h => ⟨h.1.symm, h.2.symm⟩⟩
  · simp only [errorsNew]
    tauto

/-- C9 amended, evaluated on the chain `[certB, certC]` against the handshake
error propagated at `:443`, which is an `*errors.errorString` too and differs
from the pin-mismatch error by its text only. -/
theorem C9_mismatch_error_separation_witness :
    (demoLib.tlsDial "tcp" ":443" ⟨false⟩).2 = some demoTlsErr ∧
      handshakeOk demoLib false "tcp" "bc" ⟨2, ⟨[certB, certC]⟩⟩ ∧
      (∀ cert ∈ [certB, certC], encodable demoLib cert) ∧
      (¬ ∃ cert ∈ [certB, certC], matchesPin demoLib [fpA] cert) ∧
      ∃ m, (makeDialer demoLib [fpA] false "tcp" "bc").2
          = Outcome.ret (some ⟨2, ⟨[certB, certC]⟩⟩) (some m) ∧
        m = errorsNew " Pinned Key not found" ∧
        (makeDialer demoLib [fpA] false "tcp" ":443").2
          = Outcome.ret (demoLib.tlsDial "tcp" ":443" ⟨false⟩).1 (some demoTlsErr) ∧
        (m.dynType = demoTlsErr.dynType ↔ demoTlsErr.dynType = "*errors.errorString") ∧
        (m = demoTlsErr ↔
          demoTlsErr.dynType = "*errors.errorString" ∧ demoTlsErr.msg = " Pinned Key not found") ∧
        ((demoTlsErr.dynType ≠ m.dynType ∨ demoTlsErr.msg ≠ m.msg) ↔
          ¬ (demoTlsErr.dynType = "*errors.errorString"
            ∧ demoTlsErr.msg = " Pinned Key not found")) :=
  ⟨rfl, rfl, by decide, by decide,
    C9_mismatch_error_separation demoLib [fpA] false false "tcp" ":443" "tcp" "bc"
      demoTlsErr ⟨2, ⟨[certB, certC]⟩⟩ rfl rfl (by decide) (by decide)⟩

end SslPinning
